import Mathlib

/-!
# Verification of the wolf paper-trading backend

A shallow embedding of the trade-execution, price-lookup and
intent-resolution logic of the repository:

* `backend/app/services/trading_service.py`
  (`execute_paper_trade`, `get_stock_price`),
* `backend/app/services/gemini_service.py`
  (`_basic_intent_parsing`, `_check_for_price_query`),
* `backend/app/api/endpoints/calls.py`
  (the `process_speech` intent dispatch).

Database effects are modelled by explicit state passing over a `DB`
record holding the single user's cash balance, portfolio rows and trade
rows.  Each Supabase call inside the `try` block of
`execute_paper_trade` is numbered in execution order and the parameter
`failAt` designates the (at most one) call that raises, modelling an
internal error arising mid-sequence; `failAt = none` is the error-free
run.  Monetary values are rationals.  The language-model collaborator is
modelled as absent (`self.model is None`), which routes every parsing
entry point through its deterministic keyword fallback; where a claim
depends on the model's classification, that classification is an
explicit input.

String scanning from the Python (substring tests, `str.split`,
`str.lower`, and the `\b`-delimited regexes) is embedded as
structurally recursive functions over `List Char`.
-/

namespace Wolf

/-! ## Character-list string utilities -/

/-- Lowercase every character: Python `str.lower` (ASCII inputs). -/
def lowerStr (s : String) : List Char := s.toList.map Char.toLower

/-- Uppercase every character: Python `str.upper` (ASCII inputs). -/
def upperChars (l : List Char) : List Char := l.map Char.toUpper

/-- Whether `needle` occurs contiguously inside `hay`:
Python `needle in hay` on strings. -/
def charsContain (hay needle : List Char) : Bool :=
  match hay with
  | [] => needle.isEmpty
  | _ :: cs => needle.isPrefixOf hay || charsContain cs needle

/-- Substring test between a `String` haystack and needle
(both sides lowercased by the callers that need it). -/
def strContains (hay : List Char) (needle : String) : Bool :=
  charsContain hay needle.toList

/-- Maximal runs of characters satisfying `p` (accumulator-passing
splitter used for both `str.split()` and `\b`-token extraction). -/
def runsAux (p : Char → Bool) : List Char → List Char → List (List Char)
  | [], acc => if acc.isEmpty then [] else [acc.reverse]
  | c :: cs, acc =>
    if p c then runsAux p cs (c :: acc)
    else if acc.isEmpty then runsAux p cs []
    else acc.reverse :: runsAux p cs []

/-- The maximal runs of characters satisfying `p` in `l`, in order. -/
def runsOf (p : Char → Bool) (l : List Char) : List (List Char) :=
  runsAux p l []

/-- Regex word character (`\w`, ASCII): letters, digits, underscore. -/
def isWordChar (c : Char) : Bool := c.isAlphanum || c == '_'

/-- The `\b`-delimited word tokens of a string: what `\b...\b` regexes
of the Python match against. -/
def wordTokens (l : List Char) : List (List Char) := runsOf isWordChar l

/-- Python `str.split()`: whitespace-separated words. -/
def whitespaceWords (l : List Char) : List (List Char) :=
  runsOf (fun c => !c.isWhitespace) l

/-- Matches of `re.findall(r'\b[A-Z]{1,5}\b', s)`: word tokens that are
one to five uppercase ASCII letters. -/
def upperTickerTokens (l : List Char) : List (List Char) :=
  (wordTokens l).filter (fun w => w.length ≥ 1 && w.length ≤ 5 && w.all Char.isUpper)

/-- Matches of `re.findall(r'\b\d+\b', s)`: all-digit word tokens. -/
def digitTokens (l : List Char) : List (List Char) :=
  (wordTokens l).filter (fun w => w.length ≥ 1 && w.all Char.isDigit)

/-- Numeric value of a digit run (`int` applied to a `\d+` match). -/
def digitsToNat (l : List Char) : Nat :=
  l.foldl (fun n c => 10 * n + (c.toNat - 48)) 0

/-! ## The database model

One user's slice of the Supabase tables touched by
`TradingService.execute_paper_trade`: the `cash_balance` column of
`users`, the `portfolios` rows and the `trades` rows. -/

/-- A row of the `portfolios` table. -/
structure Position where
  ticker : String
  quantity : Int
  avg_price : ℚ
deriving DecidableEq

/-- A row of the `trades` table (the fields the insert populates,
timestamps dropped). -/
structure Trade where
  ticker : String
  action : String
  quantity : Int
  price : ℚ
  total_value : ℚ
deriving DecidableEq

/-- The user's database state. -/
structure DB where
  cash : ℚ
  positions : List Position
  trades : List Trade
deriving DecidableEq

/-- Result of `execute_paper_trade`: one constructor per distinct
return of the Python function. -/
inductive TradeResult where
  | missingParams
  | invalidQuantity
  | noPrice
  | userNotFound
  | insufficientFunds
  | noShares
  | insufficientShares (held : Int)
  | internalError
  | success (t : Trade)
deriving DecidableEq

/-- Whether the result is one of the explicit validation rejections
(everything except an exception and success). -/
def TradeResult.isValidationFailure : TradeResult → Bool
  | .missingParams | .invalidQuantity | .noPrice | .userNotFound
  | .insufficientFunds | .noShares | .insufficientShares _ => true
  | .internalError | .success _ => false

/-- Whether the Supabase call numbered `k` raises under schedule
`failAt`. -/
def opFails (failAt : Option Nat) (k : Nat) : Bool := failAt == some k

/-- The `portfolios` update of the buy branch: rewrite quantity and
average price of the row `find?` located (the update is keyed by that
row's `id`, hence it touches the first row with this ticker). -/
def updatePos (tk : String) (newq : Int) (newavg : ℚ) : List Position → List Position
  | [] => []
  | p :: ps =>
    if p.ticker == tk then { p with quantity := newq, avg_price := newavg } :: ps
    else p :: updatePos tk newq newavg ps

/-- The `portfolios` update of the sell branch: rewrite only the
quantity of the first row with this ticker (`avg_price` untouched). -/
def updateQty (tk : String) (newq : Int) : List Position → List Position
  | [] => []
  | p :: ps =>
    if p.ticker == tk then { p with quantity := newq } :: ps
    else p :: updateQty tk newq ps

/-- The `portfolios` delete of the sell branch: remove the first row
with this ticker. -/
def deletePos (tk : String) : List Position → List Position
  | [] => []
  | p :: ps => if p.ticker == tk then ps else p :: deletePos tk ps

/-- The final `trades` insert (Supabase call number `k`), shared by the
buy, sell and unrecognized-action paths. -/
def insertTrade (failAt : Option Nat) (k : Nat) (db : DB) (t : Trade) :
    TradeResult × DB :=
  if opFails failAt k then (.internalError, db)
  else (.success t, { db with trades := db.trades ++ [t] })

/-- The `action.lower() == 'buy'` block of `execute_paper_trade`:
call 1 the `users` cash select, the user-not-found and
insufficient-funds checks, call 2 the cash update, call 3 the position
update (row found by ticker) or insert, call 4 the `trades` insert. -/
def buyBranch (failAt : Option Nat) (userExists : Bool) (db : DB)
    (t : Trade) : TradeResult × DB :=
  if opFails failAt 1 then (.internalError, db) else
  if userExists = false then (.userNotFound, db) else
  if db.cash < t.total_value then (.insufficientFunds, db) else
  if opFails failAt 2 then (.internalError, db) else
  let db1 : DB := { db with cash := db.cash - t.total_value }
  match db.positions.find? (fun p => p.ticker == t.ticker) with
  | some pos =>
    if opFails failAt 3 then (.internalError, db1) else
    let new_quantity : Int := pos.quantity + t.quantity
    let new_avg_price : ℚ :=
      ((pos.quantity : ℚ) * pos.avg_price + t.total_value) / (new_quantity : ℚ)
    insertTrade failAt 4
      { db1 with positions := updatePos t.ticker new_quantity new_avg_price db1.positions } t
  | none =>
    if opFails failAt 3 then (.internalError, db1) else
    insertTrade failAt 4
      { db1 with positions := db1.positions ++ [⟨t.ticker, t.quantity, t.price⟩] } t

/-- The `action.lower() == 'sell'` block of `execute_paper_trade`: the
position lookup and the no-shares / insufficient-shares checks, call 1
the `users` cash select (`user_cash.data[0]` raises when the user row is
missing, hence `internalError` there), call 2 the cash update, call 3
the position delete (when the quantity reaches 0) or update, call 4 the
`trades` insert. -/
def sellBranch (failAt : Option Nat) (userExists : Bool) (db : DB)
    (t : Trade) : TradeResult × DB :=
  match db.positions.find? (fun p => p.ticker == t.ticker) with
  | none => (.noShares, db)
  | some pos =>
    if pos.quantity < t.quantity then (.insufficientShares pos.quantity, db) else
    if opFails failAt 1 then (.internalError, db) else
    if userExists = false then (.internalError, db) else
    if opFails failAt 2 then (.internalError, db) else
    let db1 : DB := { db with cash := db.cash + t.total_value }
    if opFails failAt 3 then (.internalError, db1) else
    let new_quantity : Int := pos.quantity - t.quantity
    let db2 : DB :=
      if new_quantity = 0 then { db1 with positions := deletePos t.ticker db1.positions }
      else { db1 with positions := updateQty t.ticker new_quantity db1.positions }
    insertTrade failAt 4 db2 t

/-- `TradingService.execute_paper_trade(user_id, action, ticker, quantity)`.

`userExists` is whether the `users` lookup finds a row; `price?` is what
`get_stock_price` returned for the ticker.  The guards in order: the
`all([...])` falsiness check (zero quantity is falsy), `abs`,
the positivity re-check, the price lookup.  Inside the `try` block the
Supabase calls are numbered in execution order starting from 0, the
`portfolios` select; a raising call returns `internalError` with all
earlier mutations kept, as the Python `except` handler does (there is no
rollback).  An action other than buy/sell falls through both branches
straight to the `trades` insert (call 1). -/
def execute_paper_trade (failAt : Option Nat) (userExists : Bool) (price? : Option ℚ)
    (db : DB) (action ticker : String) (quantity : Int) : TradeResult × DB :=
  if action = "" ∨ ticker = "" ∨ quantity = 0 then (.missingParams, db) else
  let q : Int := |quantity|
  if q ≤ 0 then (.invalidQuantity, db) else
  match price? with
  | none => (.noPrice, db)
  | some price =>
    if opFails failAt 0 then (.internalError, db) else
    let act : String := (lowerStr action).asString
    let t : Trade := ⟨ticker, act, q, price, price * (q : ℚ)⟩
    if act = "buy" then buyBranch failAt userExists db t
    else if act = "sell" then sellBranch failAt userExists db t
    else insertTrade failAt 1 db t

/-- One call to `execute_paper_trade`: its failure schedule, whether the
user row exists, the quoted price, and the trade arguments. -/
structure Call where
  failAt : Option Nat
  userExists : Bool
  price? : Option ℚ
  action : String
  ticker : String
  quantity : Int
deriving DecidableEq

/-- Run one `Call` against a database state. -/
def runCall (db : DB) (c : Call) : TradeResult × DB :=
  execute_paper_trade c.failAt c.userExists c.price? db c.action c.ticker c.quantity

/-- Run a sequence of calls, threading the database state. -/
def runCalls (db : DB) (cs : List Call) : DB :=
  cs.foldl (fun d c => (runCall d c).2) db

/-! ## Helper lemmas about the portfolio operations -/

theorem lowerStr_buy : (lowerStr "buy").asString = "buy" := by decide

theorem lowerStr_sell : (lowerStr "sell").asString = "sell" := by decide

theorem opFails_none (k : Nat) : opFails none k = false := rfl

theorem updatePos_quantity_pos {tk : String} {nq : Int} {na : ℚ} (hnq : 0 < nq) :
    ∀ ps : List Position, (∀ p ∈ ps, 0 < p.quantity) →
      ∀ p ∈ updatePos tk nq na ps, 0 < p.quantity := by
  intro ps
  induction ps with
  | nil => intro _ p hp; simp [updatePos] at hp
  | cons a as ih =>
    intro hps p hp
    rw [updatePos] at hp
    split at hp
    · rcases List.mem_cons.mp hp with h | hp'
      · rw [h]; exact hnq
      · exact hps p (List.mem_cons_of_mem a hp')
    · rcases List.mem_cons.mp hp with h | hp'
      · rw [h]; exact hps a (List.mem_cons_self a as)
      · exact ih (fun x hx => hps x (List.mem_cons_of_mem a hx)) p hp'

theorem updateQty_quantity_pos {tk : String} {nq : Int} (hnq : 0 < nq) :
    ∀ ps : List Position, (∀ p ∈ ps, 0 < p.quantity) →
      ∀ p ∈ updateQty tk nq ps, 0 < p.quantity := by
  intro ps
  induction ps with
  | nil => intro _ p hp; simp [updateQty] at hp
  | cons a as ih =>
    intro hps p hp
    rw [updateQty] at hp
    split at hp
    · rcases List.mem_cons.mp hp with h | hp'
      · rw [h]; exact hnq
      · exact hps p (List.mem_cons_of_mem a hp')
    · rcases List.mem_cons.mp hp with h | hp'
      · rw [h]; exact hps a (List.mem_cons_self a as)
      · exact ih (fun x hx => hps x (List.mem_cons_of_mem a hx)) p hp'

theorem deletePos_subset {tk : String} :
    ∀ ps : List Position, ∀ p ∈ deletePos tk ps, p ∈ ps := by
  intro ps
  induction ps with
  | nil => simp [deletePos]
  | cons a as ih =>
    intro p hp
    rw [deletePos] at hp
    split at hp
    · exact List.mem_cons_of_mem a hp
    · rcases List.mem_cons.mp hp with h | hp'
      · rw [h]; exact List.mem_cons_self a as
      · exact List.mem_cons_of_mem a (ih p hp')

/-! ## C1: failure results and mutations -/

/-- C1 (counterexample): trade execution is not atomic.  With the
`trades` insert (Supabase call 4) raising, a buy of 10 AAPL at 150 from
cash 10000 reports a failure (`internalError`), yet the cash debit and
the position insert persist: the database is not the initial one. -/
theorem execute_midsequence_error_mutates :
    (execute_paper_trade (some 4) true (some 150) ⟨10000, [], []⟩ "buy" "AAPL" 10).1 =
      .internalError ∧
    (execute_paper_trade (some 4) true (some 150) ⟨10000, [], []⟩ "buy" "AAPL" 10).2 =
      ⟨8500, [⟨"AAPL", 10, 150⟩], []⟩ ∧
    (⟨8500, [⟨"AAPL", 10, 150⟩], []⟩ : DB) ≠ ⟨10000, [], []⟩ := by
  refine ⟨?_, ?_, by simp⟩ <;>
    norm_num [execute_paper_trade, buyBranch, insertTrade, opFails, List.find?, lowerStr_buy] <;>
    decide

/-- C1 (amended): every explicit validation failure (missing parameters,
invalid quantity, unavailable price, user not found on buy, insufficient
funds, no shares, insufficient shares) is returned before any mutation,
leaving cash, positions and trades unchanged; atomicity does not extend
to an internal error arising mid-sequence, which can leave earlier
mutations in place. -/
theorem execute_validation_failure_unchanged
    (failAt : Option Nat) (userExists : Bool) (price? : Option ℚ) (db : DB)
    (action ticker : String) (quantity : Int)
    (h : (execute_paper_trade failAt userExists price? db action ticker quantity).1.isValidationFailure
          = true) :
    (execute_paper_trade failAt userExists price? db action ticker quantity).2 = db := by
  rcases he : execute_paper_trade failAt userExists price? db action ticker quantity with ⟨r, db2⟩
  rw [he] at h
  dsimp only at h ⊢
  unfold execute_paper_trade at he
  dsimp only at he
  repeat' split at he
  all_goals try unfold buyBranch at he
  all_goals try unfold sellBranch at he
  all_goals try unfold insertTrade at he
  all_goals try dsimp only at he
  all_goals repeat' split at he
  all_goals
    (injection he with h1 h2; subst h1; subst h2;
      simp_all [TradeResult.isValidationFailure])

/-- C1 (witness): the oversell scenario — holding 5 TSLA, selling 10 is
rejected as `insufficientShares` with no mutation to cash, positions or
trades. -/
theorem execute_validation_failure_unchanged_witness :
    (execute_paper_trade none true (some 100) ⟨1000, [⟨"TSLA", 5, 90⟩], []⟩
        "sell" "TSLA" 10).1.isValidationFailure = true ∧
    (execute_paper_trade none true (some 100) ⟨1000, [⟨"TSLA", 5, 90⟩], []⟩
        "sell" "TSLA" 10).2 = ⟨1000, [⟨"TSLA", 5, 90⟩], []⟩ := by
  constructor
  · norm_num [execute_paper_trade, sellBranch, insertTrade, opFails, List.find?, lowerStr_sell,
      TradeResult.isValidationFailure]
    decide
  · exact execute_validation_failure_unchanged none true (some 100)
      ⟨1000, [⟨"TSLA", 5, 90⟩], []⟩ "sell" "TSLA" 10
      (by norm_num [execute_paper_trade, sellBranch, insertTrade, opFails, List.find?,
            lowerStr_sell, TradeResult.isValidationFailure]
          decide)

/-! ## C5: quantity validation -/

/-- C5 (counterexample): a negative quantity is not rejected as an
invalid quantity.  `executeTrade(buy, AAPL, -5)` with price 150 and cash
10000 succeeds, buying 5 shares: cash is debited 750 and a position and
trade row appear. -/
theorem execute_negative_quantity_executes :
    (execute_paper_trade none true (some 150) ⟨10000, [], []⟩ "buy" "AAPL" (-5)).1 =
      .success ⟨"AAPL", "buy", 5, 150, 750⟩ ∧
    (execute_paper_trade none true (some 150) ⟨10000, [], []⟩ "buy" "AAPL" (-5)).2 =
      ⟨9250, [⟨"AAPL", 5, 150⟩], [⟨"AAPL", "buy", 5, 150, 750⟩]⟩ := by
  constructor <;>
    norm_num [execute_paper_trade, buyBranch, insertTrade, opFails, List.find?, lowerStr_buy] <;>
    decide

/-- C5 (amended): a zero quantity is rejected by the
missing-parameter guard (`not all([...])`, since `0` is falsy) with no
mutation; any other quantity is replaced by its absolute value
(`quantity = abs(quantity)`), so a negative quantity is traded exactly
like the corresponding positive one rather than rejected. -/
theorem execute_quantity_normalization
    (failAt : Option Nat) (userExists : Bool) (price? : Option ℚ) (db : DB)
    (action ticker : String) (q : Int) (h : q = 0) :
    execute_paper_trade failAt userExists price? db action ticker q = (.missingParams, db) ∧
    ∀ q' : Int, execute_paper_trade failAt userExists price? db action ticker q' =
      execute_paper_trade failAt userExists price? db action ticker |q'| := by
  constructor
  · subst h; simp [execute_paper_trade]
  · intro q'
    by_cases h0 : q' = 0
    · subst h0; norm_num
    · simp only [execute_paper_trade, abs_abs, abs_eq_zero]

/-- C5 (witness): at quantity 0 the buy is rejected with the
missing-parameters error and an unchanged database, and the
quantity-normalization equation holds at `-5`. -/
theorem execute_quantity_normalization_witness :
    execute_paper_trade none true (some 150) ⟨10000, [], []⟩ "buy" "AAPL" 0 =
      (.missingParams, ⟨10000, [], []⟩) ∧
    execute_paper_trade none true (some 150) ⟨10000, [], []⟩ "buy" "AAPL" (-5) =
      execute_paper_trade none true (some 150) ⟨10000, [], []⟩ "buy" "AAPL" 5 := by
  have h := execute_quantity_normalization none true (some 150) ⟨10000, [], []⟩
    "buy" "AAPL" 0 rfl
  exact ⟨h.1, by simpa using h.2 (-5)⟩

/-! ## The price lookup: `get_stock_price` -/

/-- Outcome of the Alpha Vantage `GLOBAL_QUOTE` request inside
`get_stock_price`: the request/parse raised; the payload carried a
usable "Global Quote" price; the payload carried the API-frequency
"Note" (rate-limit signal); or the payload had neither (empty or
malformed). -/
inductive AlphaOutcome where
  | raise
  | quote (price : ℚ)
  | rateLimitNote
  | empty
deriving DecidableEq

/-- Outcome of the Yahoo Finance request inside
`_get_yahoo_finance_data`, before its own exception handler. -/
inductive YahooOutcome where
  | raise
  | ok (price : ℚ)
  | nodata
deriving DecidableEq

/-- `TradingService._get_yahoo_finance_data`: returns `None` without a
configured key; its own `try/except` catches request errors, so the
caller sees a price or `None` (the price is returned without a
positivity check). -/
def yahoo_finance_data (key : Bool) (y : YahooOutcome) : Option ℚ :=
  if key = false then none
  else match y with
    | .ok p => some p
    | _ => none

/-- The emergency fallback price table of `get_stock_price`. -/
def fallback_prices : List (String × ℚ) :=
  [("AAPL", 188.38), ("MSFT", 418.12), ("GOOGL", 153.75), ("AMZN", 179.55),
   ("META", 474.97), ("NVDA", 94.31), ("TSLA", 173.80), ("JPM", 199.95),
   ("V", 275.42), ("NFLX", 608.14)]

/-- `ticker in fallback_prices` followed by the table read. -/
def fallbackLookup (ticker : String) : Option ℚ :=
  (fallback_prices.find? (fun e => e.1 == ticker)).map (fun e => e.2)

/-- `TradingService.get_stock_price(ticker)`, parameterized by the
outcomes of the two remote sources.  The Python: return the Alpha
Vantage price when present and positive; otherwise, only when the
payload carries the rate-limit "Note" and a Yahoo key is configured, try
Yahoo and return its price when it yields one; otherwise consult the
emergency table; a raised exception anywhere in the `try` block is
caught by the single outer handler, which returns `None` directly. -/
def get_stock_price (alpha : AlphaOutcome) (yahooKey : Bool) (y : YahooOutcome)
    (ticker : String) : Option ℚ :=
  match alpha with
  | .raise => none
  | .quote p => if 0 < p then some p else fallbackLookup ticker
  | .rateLimitNote =>
    match yahoo_finance_data yahooKey y with
    | some p => some p
    | none => fallbackLookup ticker
  | .empty => fallbackLookup ticker

/-! ## C6: source order of the price lookup -/

/-- C6 (counterexample): a network exception on the primary source is
not caught per-source — the outer handler returns `Unavailable`
immediately, without trying the secondary source (which here would
return a price) and without consulting the emergency table, even though
AAPL is in it. -/
theorem get_stock_price_exception_skips_fallbacks :
    get_stock_price .raise true (.ok 1) "AAPL" = none ∧
    fallbackLookup "AAPL" = some 188.38 ∧
    yahoo_finance_data true (.ok 1) = some 1 :=
  ⟨rfl, rfl, rfl⟩

/-- C6 (amended): a positive primary quote is returned as-is; the
secondary source is consulted only on the primary's explicit rate-limit
note with a key configured, its price returned without a positivity
check; a primary payload without usable price falls directly to the
static emergency table; a primary exception yields `Unavailable` at
once; and otherwise `Unavailable` is returned exactly when the ticker is
absent from the emergency table. -/
theorem get_stock_price_source_order (alpha : AlphaOutcome) (yahooKey : Bool)
    (y : YahooOutcome) (tk : String) :
    (∀ p : ℚ, alpha = .quote p → 0 < p → get_stock_price alpha yahooKey y tk = some p) ∧
    (alpha = .raise → get_stock_price alpha yahooKey y tk = none) ∧
    (get_stock_price alpha yahooKey y tk = none →
      alpha = .raise ∨ fallbackLookup tk = none) ∧
    (alpha = .rateLimitNote → ∀ p : ℚ, yahoo_finance_data yahooKey y = some p →
      get_stock_price alpha yahooKey y tk = some p) ∧
    (alpha = .rateLimitNote → yahoo_finance_data yahooKey y = none →
      get_stock_price alpha yahooKey y tk = fallbackLookup tk) ∧
    (alpha = .empty → get_stock_price alpha yahooKey y tk = fallbackLookup tk) := by
  refine ⟨?_, ?_, ?_, ?_, ?_, ?_⟩
  · intro p hp hpos
    subst hp
    simp [get_stock_price, hpos]
  · intro h; subst h; rfl
  · intro hnone
    cases alpha with
    | raise => exact Or.inl rfl
    | quote p =>
      right
      simp only [get_stock_price] at hnone
      split at hnone
      · exact Option.noConfusion hnone
      · exact hnone
    | rateLimitNote =>
      right
      simp only [get_stock_price] at hnone
      split at hnone
      · exact Option.noConfusion hnone
      · exact hnone
    | empty => exact Or.inr hnone
  · intro h p hy
    subst h
    unfold get_stock_price
    rw [hy]
  · intro h hy
    subst h
    unfold get_stock_price
    rw [hy]
  · intro h; subst h; rfl

/-- C6 (witness): a positive primary quote of 42 is returned unchanged,
and a rate-limited primary with no Yahoo key falls to the table: MSFT
maps to its static price while an unknown ticker yields `Unavailable`. -/
theorem get_stock_price_source_order_witness :
    (AlphaOutcome.quote 42 = AlphaOutcome.quote 42 ∧ (0 : ℚ) < 42 ∧
      get_stock_price (.quote 42) false .nodata "ZZZZ" = some 42) ∧
    (get_stock_price .rateLimitNote false .nodata "MSFT" = fallbackLookup "MSFT" ∧
      fallbackLookup "MSFT" = some 418.12) ∧
    (get_stock_price .rateLimitNote false .nodata "ZZZZ" = none) := by
  refine ⟨⟨rfl, by norm_num, ?_⟩, ⟨?_, rfl⟩, ?_⟩
  · exact (get_stock_price_source_order (.quote 42) false .nodata "ZZZZ").1 42 rfl
      (by norm_num)
  · exact (get_stock_price_source_order .rateLimitNote false .nodata "MSFT").2.2.2.2.1
      rfl rfl
  · have h := (get_stock_price_source_order .rateLimitNote false .nodata "ZZZZ").2.2.2.2.1
      rfl rfl
    rw [h]; rfl

/-! ## C2: the portfolio invariant -/

theorem buyBranch_invariant (failAt : Option Nat) (userExists : Bool) (db : DB) (t : Trade)
    (hcash : 0 ≤ db.cash) (hpos : ∀ p ∈ db.positions, 0 < p.quantity)
    (hq : 0 < t.quantity) :
    0 ≤ (buyBranch failAt userExists db t).2.cash ∧
    ∀ p ∈ (buyBranch failAt userExists db t).2.positions, 0 < p.quantity := by
  unfold buyBranch insertTrade
  dsimp only
  split
  · exact ⟨hcash, hpos⟩
  split
  · exact ⟨hcash, hpos⟩
  split
  case isTrue => exact ⟨hcash, hpos⟩
  case isFalse hfunds =>
    have hc2 : 0 ≤ db.cash - t.total_value := sub_nonneg.mpr (not_lt.mp hfunds)
    split
    · exact ⟨hcash, hpos⟩
    split
    case h_1 pos heq =>
      have hposq : 0 < pos.quantity + t.quantity :=
        add_pos (hpos pos (List.mem_of_find?_eq_some heq)) hq
      split
      · exact ⟨hc2, hpos⟩
      split
      · exact ⟨hc2, updatePos_quantity_pos hposq db.positions hpos⟩
      · exact ⟨hc2, updatePos_quantity_pos hposq db.positions hpos⟩
    case h_2 heq =>
      have hnewrow : ∀ p ∈ db.positions ++ [(⟨t.ticker, t.quantity, t.price⟩ : Position)],
          0 < p.quantity := by
        intro p hp
        rcases List.mem_append.mp hp with hp2 | hp2
        · exact hpos p hp2
        · rw [List.mem_singleton.mp hp2]; exact hq
      split
      · exact ⟨hc2, hpos⟩
      split
      · exact ⟨hc2, hnewrow⟩
      · exact ⟨hc2, hnewrow⟩

theorem sellBranch_invariant (failAt : Option Nat) (userExists : Bool) (db : DB) (t : Trade)
    (hcash : 0 ≤ db.cash) (hpos : ∀ p ∈ db.positions, 0 < p.quantity)
    (htv : 0 ≤ t.total_value) :
    0 ≤ (sellBranch failAt userExists db t).2.cash ∧
    ∀ p ∈ (sellBranch failAt userExists db t).2.positions, 0 < p.quantity := by
  unfold sellBranch insertTrade
  dsimp only
  split
  case h_1 heq => exact ⟨hcash, hpos⟩
  case h_2 pos heq =>
    split
    case isTrue => exact ⟨hcash, hpos⟩
    case isFalse hlt =>
      have hc2 : 0 ≤ db.cash + t.total_value := add_nonneg hcash htv
      split
      · exact ⟨hcash, hpos⟩
      split
      · exact ⟨hcash, hpos⟩
      split
      · exact ⟨hcash, hpos⟩
      split
      · exact ⟨hc2, hpos⟩
      by_cases hz : pos.quantity - t.quantity = 0
      · simp only [if_pos hz]
        split
        · exact ⟨hc2, fun p hp => hpos p (deletePos_subset db.positions p hp)⟩
        · exact ⟨hc2, fun p hp => hpos p (deletePos_subset db.positions p hp)⟩
      · simp only [if_neg hz]
        have hq2 : 0 < pos.quantity - t.quantity := by
          have h3 := not_lt.mp hlt
          omega
        split
        · exact ⟨hc2, updateQty_quantity_pos hq2 db.positions hpos⟩
        · exact ⟨hc2, updateQty_quantity_pos hq2 db.positions hpos⟩

theorem execute_invariant_step (failAt : Option Nat) (userExists : Bool) (price? : Option ℚ)
    (db : DB) (action ticker : String) (quantity : Int)
    (hcash : 0 ≤ db.cash) (hpos : ∀ p ∈ db.positions, 0 < p.quantity)
    (hprice : ∀ pr : ℚ, price? = some pr → 0 < pr) :
    0 ≤ (execute_paper_trade failAt userExists price? db action ticker quantity).2.cash ∧
    ∀ p ∈ (execute_paper_trade failAt userExists price? db action ticker quantity).2.positions,
      0 < p.quantity := by
  rcases price? with _ | price
  · unfold execute_paper_trade
    dsimp only
    split
    · exact ⟨hcash, hpos⟩
    split
    · exact ⟨hcash, hpos⟩
    exact ⟨hcash, hpos⟩
  · have hp : 0 < price := hprice price rfl
    unfold execute_paper_trade
    dsimp only
    split
    · exact ⟨hcash, hpos⟩
    split
    case isTrue => exact ⟨hcash, hpos⟩
    case isFalse hqle =>
      have hq : 0 < |quantity| := lt_of_not_le hqle
      split
      · exact ⟨hcash, hpos⟩
      split
      · exact buyBranch_invariant failAt userExists db _ hcash hpos hq
      split
      · exact sellBranch_invariant failAt userExists db _ hcash hpos
          (mul_nonneg (le_of_lt hp) (by positivity))
      · unfold insertTrade
        split
        · exact ⟨hcash, hpos⟩
        · exact ⟨hcash, hpos⟩

theorem runCalls_invariant (cs : List Call) : ∀ db : DB,
    0 ≤ db.cash → (∀ p ∈ db.positions, 0 < p.quantity) →
    (∀ c ∈ cs, ∀ pr : ℚ, c.price? = some pr → 0 < pr) →
    0 ≤ (runCalls db cs).cash ∧ ∀ p ∈ (runCalls db cs).positions, 0 < p.quantity := by
  induction cs with
  | nil => intro db h1 h2 _; exact ⟨h1, h2⟩
  | cons c cs ih =>
    intro db h1 h2 hp
    have hstep := execute_invariant_step c.failAt c.userExists c.price? db c.action c.ticker
      c.quantity h1 h2 (hp c (List.mem_cons_self c cs))
    exact ih (runCall db c).2 hstep.1 hstep.2 (fun x hx => hp x (List.mem_cons_of_mem c hx))

theorem sellBranch_no_mutation (failAt : Option Nat) (userExists : Bool) (d : DB) (t : Trade)
    (hno : ∀ pos, d.positions.find? (fun p => p.ticker == t.ticker) = some pos →
      pos.quantity < t.quantity) :
    (sellBranch failAt userExists d t).2 = d := by
  unfold sellBranch
  dsimp only
  split
  case h_1 => rfl
  case h_2 =>
    rename_i pos heq
    rw [if_pos (hno pos heq)]

theorem sell_guard_no_mutation (failAt : Option Nat) (userExists : Bool) (price? : Option ℚ)
    (d : DB) (action ticker : String) (quantity : Int)
    (hsell : (lowerStr action).asString = "sell")
    (hno : ∀ pos, d.positions.find? (fun x => x.ticker == ticker) = some pos →
      pos.quantity < |quantity|) :
    (execute_paper_trade failAt userExists price? d action ticker quantity).2 = d := by
  unfold execute_paper_trade
  dsimp only
  rw [hsell]
  split
  · rfl
  split
  · rfl
  split
  case h_1 => rfl
  case h_2 =>
    split
    · rfl
    split
    case isTrue hbuy => exact absurd hbuy (by decide)
    case isFalse =>
      split
      case isTrue => exact sellBranch_no_mutation failAt userExists d _ hno
      case isFalse hss => exact absurd rfl hss

theorem execute_sell_requires_shares (d : DB) (c : Call)
    (hsell : (lowerStr c.action).asString = "sell")
    (hmut : (runCall d c).2 ≠ d) :
    ∃ pos ∈ d.positions, pos.ticker = c.ticker ∧ |c.quantity| ≤ pos.quantity := by
  rcases c with ⟨failAt, userExists, price?, action, ticker, quantity⟩
  dsimp only at hsell hmut ⊢
  rcases hf : d.positions.find? (fun x => x.ticker == ticker) with _ | pos
  · exact absurd
      (sell_guard_no_mutation failAt userExists price? d action ticker quantity hsell
        (fun pos h => Option.noConfusion (hf ▸ h)))
      hmut
  · by_cases hle : |quantity| ≤ pos.quantity
    · exact ⟨pos, List.mem_of_find?_eq_some hf, by simpa using List.find?_some hf, hle⟩
    · refine absurd
        (sell_guard_no_mutation failAt userExists price? d action ticker quantity hsell ?_)
        hmut
      intro pos2 h
      rw [hf] at h
      cases h
      exact lt_of_not_le hle

/-- C2: over every sequence of `executeTrade` calls from a state with
nonnegative cash and positive position quantities (and prices, when a
quote comes back, positive as `get_stock_price` yields for its primary
and static sources), the cash balance stays nonnegative and every
surviving position row keeps quantity > 0; moreover a sell call can only
mutate the state when the looked-up position holds at least the
(absolute) requested quantity — an oversell is never accepted. -/
theorem execute_invariant_sequences (db : DB) (cs : List Call)
    (hcash : 0 ≤ db.cash) (hpos : ∀ p ∈ db.positions, 0 < p.quantity)
    (hprice : ∀ c ∈ cs, ∀ pr : ℚ, c.price? = some pr → 0 < pr) :
    (0 ≤ (runCalls db cs).cash ∧ ∀ p ∈ (runCalls db cs).positions, 0 < p.quantity) ∧
    ∀ (d : DB) (c : Call), (lowerStr c.action).asString = "sell" → (runCall d c).2 ≠ d →
      ∃ pos ∈ d.positions, pos.ticker = c.ticker ∧ |c.quantity| ≤ pos.quantity :=
  ⟨runCalls_invariant cs db hcash hpos hprice,
   fun d c h1 h2 => execute_sell_requires_shares d c h1 h2⟩

/-- C2 (witness): a concrete two-call sequence — buy 10 AAPL at 150 from
cash 10000, then sell 4 AAPL at 200 — keeps the invariant. -/
theorem execute_invariant_sequences_witness :
    ((0 : ℚ) ≤ (10000 : ℚ) ∧ ∀ p ∈ ([] : List Position), 0 < p.quantity) ∧
    (0 ≤ (runCalls ⟨10000, [], []⟩
        [⟨none, true, some 150, "buy", "AAPL", 10⟩,
         ⟨none, true, some 200, "sell", "AAPL", 4⟩]).cash ∧
     ∀ p ∈ (runCalls ⟨10000, [], []⟩
        [⟨none, true, some 150, "buy", "AAPL", 10⟩,
         ⟨none, true, some 200, "sell", "AAPL", 4⟩]).positions, 0 < p.quantity) := by
  refine ⟨⟨by norm_num, by simp⟩, ?_⟩
  refine (execute_invariant_sequences ⟨10000, [], []⟩ _ (by norm_num) (by simp) ?_).1
  intro c hc pr hpr
  rcases List.mem_cons.mp hc with h | hc
  · rw [h] at hpr
    injection hpr with h2
    rw [← h2]; norm_num
  rcases List.mem_cons.mp hc with h | hc
  · rw [h] at hpr
    injection hpr with h2
    rw [← h2]; norm_num
  · exact absurd hc (List.not_mem_nil c)

/-! ## C3 and C4: buy and sell arithmetic -/

theorem find?_updateQty {tk : String} {nq : Int} :
    ∀ ps : List Position, ∀ pos, ps.find? (fun x => x.ticker == tk) = some pos →
      (updateQty tk nq ps).find? (fun x => x.ticker == tk) = some { pos with quantity := nq } := by
  intro ps
  induction ps with
  | nil => intro pos h; simp [List.find?] at h
  | cons a as ih =>
    intro pos h
    rw [updateQty]
    split
    case isTrue hat =>
      simp only [List.find?, hat] at h ⊢
      cases h
      rfl
    case isFalse hat =>
      have hfa : (a.ticker == tk) = false := by
        cases hb : (a.ticker == tk) with
        | true => exact absurd hb hat
        | false => rfl
      simp only [List.find?, hfa] at h ⊢
      exact ih pos h

/-- C3: a buy that passes its preconditions debits cash by exactly
price × quantity, appends exactly one trade row with
`total_value = price × quantity`, and upserts the position: an existing
row (the one the lookup finds) is rewritten to
`new_quantity = old + quantity` and
`new_avg_price = (old_qty × old_avg + trade_value) / new_quantity`,
and with no existing row a fresh position with `avg_price` equal to the
execution price is appended. -/
theorem execute_buy_math (db : DB) (p : ℚ) (tk : String) (q : Int)
    (htk : tk ≠ "") (hq : 0 < q) (hfunds : p * (q : ℚ) ≤ db.cash) :
    (execute_paper_trade none true (some p) db "buy" tk q).1 =
      .success ⟨tk, "buy", q, p, p * (q : ℚ)⟩ ∧
    (execute_paper_trade none true (some p) db "buy" tk q).2.cash = db.cash - p * (q : ℚ) ∧
    (execute_paper_trade none true (some p) db "buy" tk q).2.trades =
      db.trades ++ [⟨tk, "buy", q, p, p * (q : ℚ)⟩] ∧
    (∀ pos, db.positions.find? (fun x => x.ticker == tk) = some pos →
      (execute_paper_trade none true (some p) db "buy" tk q).2.positions =
        updatePos tk (pos.quantity + q)
          (((pos.quantity : ℚ) * pos.avg_price + p * (q : ℚ)) / ((pos.quantity + q : Int) : ℚ))
          db.positions) ∧
    (db.positions.find? (fun x => x.ticker == tk) = none →
      (execute_paper_trade none true (some p) db "buy" tk q).2.positions =
        db.positions ++ [⟨tk, q, p⟩]) := by
  have h1 : execute_paper_trade none true (some p) db "buy" tk q =
      buyBranch none true db ⟨tk, "buy", q, p, p * (q : ℚ)⟩ := by
    simp [execute_paper_trade, opFails, htk, ne_of_gt hq, not_le.mpr hq,
      abs_of_pos hq, lowerStr_buy]
  rw [h1]
  rcases hf : db.positions.find? (fun x => x.ticker == tk) with _ | pos
  · have h2 : buyBranch none true db ⟨tk, "buy", q, p, p * (q : ℚ)⟩ =
        (.success ⟨tk, "buy", q, p, p * (q : ℚ)⟩,
         ⟨db.cash - p * (q : ℚ), db.positions ++ [⟨tk, q, p⟩],
          db.trades ++ [⟨tk, "buy", q, p, p * (q : ℚ)⟩]⟩) := by
      simp [buyBranch, insertTrade, opFails, hf, not_lt.mpr hfunds]
    rw [h2]
    refine ⟨rfl, rfl, rfl, ?_, fun _ => rfl⟩
    intro pos hpos
    rw [hf] at hpos
    exact Option.noConfusion hpos
  · have h2 : buyBranch none true db ⟨tk, "buy", q, p, p * (q : ℚ)⟩ =
        (.success ⟨tk, "buy", q, p, p * (q : ℚ)⟩,
         ⟨db.cash - p * (q : ℚ),
          updatePos tk (pos.quantity + q)
            (((pos.quantity : ℚ) * pos.avg_price + p * (q : ℚ)) / ((pos.quantity + q : Int) : ℚ))
            db.positions,
          db.trades ++ [⟨tk, "buy", q, p, p * (q : ℚ)⟩]⟩) := by
      simp [buyBranch, insertTrade, opFails, hf, not_lt.mpr hfunds]
    rw [h2]
    refine ⟨rfl, rfl, rfl, ?_, ?_⟩
    · intro pos' hpos'
      rw [hf] at hpos'
      cases hpos'
      rfl
    · intro hnone
      rw [hf] at hnone
      exact Option.noConfusion hnone

/-- C3 (witness): the spec scenario — cash 10000, no positions, buy 10
AAPL at 150 yields cash 8500, a position of 10 at average 150, and one
trade with total value 1500. -/
theorem execute_buy_math_witness :
    ("AAPL" ≠ "" ∧ (0 : Int) < 10 ∧ (150 : ℚ) * ((10 : Int) : ℚ) ≤ 10000) ∧
    execute_paper_trade none true (some 150) ⟨10000, [], []⟩ "buy" "AAPL" 10 =
      (.success ⟨"AAPL", "buy", 10, 150, 1500⟩,
       ⟨8500, [⟨"AAPL", 10, 150⟩], [⟨"AAPL", "buy", 10, 150, 1500⟩]⟩) := by
  refine ⟨⟨by decide, by decide, by norm_num⟩, ?_⟩
  have h := execute_buy_math ⟨10000, [], []⟩ 150 "AAPL" 10 (by decide) (by decide) (by norm_num)
  rcases he : execute_paper_trade none true (some 150) ⟨10000, [], []⟩ "buy" "AAPL" 10
    with ⟨r, db2⟩
  rw [he] at h
  obtain ⟨hr, hcash, htr, _, hfresh⟩ := h
  have hpos := hfresh (by decide)
  dsimp only at hr hcash htr hpos
  rcases db2 with ⟨c2, p2, t2⟩
  dsimp only at hcash htr hpos
  rw [hr, hcash, htr, hpos]
  norm_num

/-- C4: a sell of `q` shares against a held position of `h ≥ q` shares
credits cash by exactly price × q; when `h = q` the position row is
deleted, and when `h > q` the row keeps its `avg_price` and its quantity
becomes `h - q`; exactly one trade row is appended. -/
theorem execute_sell_math (db : DB) (p : ℚ) (tk : String) (q : Int) (pos : Position)
    (htk : tk ≠ "") (hq : 0 < q)
    (hfind : db.positions.find? (fun x => x.ticker == tk) = some pos)
    (hheld : q ≤ pos.quantity) :
    (execute_paper_trade none true (some p) db "sell" tk q).1 =
      .success ⟨tk, "sell", q, p, p * (q : ℚ)⟩ ∧
    (execute_paper_trade none true (some p) db "sell" tk q).2.cash = db.cash + p * (q : ℚ) ∧
    (execute_paper_trade none true (some p) db "sell" tk q).2.trades =
      db.trades ++ [⟨tk, "sell", q, p, p * (q : ℚ)⟩] ∧
    (pos.quantity = q →
      (execute_paper_trade none true (some p) db "sell" tk q).2.positions =
        deletePos tk db.positions) ∧
    (pos.quantity ≠ q →
      (execute_paper_trade none true (some p) db "sell" tk q).2.positions.find?
          (fun x => x.ticker == tk) = some { pos with quantity := pos.quantity - q }) := by
  have h1 : execute_paper_trade none true (some p) db "sell" tk q =
      sellBranch none true db ⟨tk, "sell", q, p, p * (q : ℚ)⟩ := by
    simp [execute_paper_trade, opFails, htk, ne_of_gt hq, not_le.mpr hq,
      abs_of_pos hq, lowerStr_sell]
  rw [h1]
  by_cases hz : pos.quantity - q = 0
  · have h2 : sellBranch none true db ⟨tk, "sell", q, p, p * (q : ℚ)⟩ =
        (.success ⟨tk, "sell", q, p, p * (q : ℚ)⟩,
         ⟨db.cash + p * (q : ℚ), deletePos tk db.positions,
          db.trades ++ [⟨tk, "sell", q, p, p * (q : ℚ)⟩]⟩) := by
      simp [sellBranch, insertTrade, opFails, hfind, not_lt.mpr hheld, hz]
    rw [h2]
    exact ⟨rfl, rfl, rfl, fun _ => rfl,
      fun hne => absurd (by omega : pos.quantity = q) hne⟩
  · have h2 : sellBranch none true db ⟨tk, "sell", q, p, p * (q : ℚ)⟩ =
        (.success ⟨tk, "sell", q, p, p * (q : ℚ)⟩,
         ⟨db.cash + p * (q : ℚ), updateQty tk (pos.quantity - q) db.positions,
          db.trades ++ [⟨tk, "sell", q, p, p * (q : ℚ)⟩]⟩) := by
      simp [sellBranch, insertTrade, opFails, hfind, not_lt.mpr hheld, hz]
    rw [h2]
    exact ⟨rfl, rfl, rfl, fun heq => absurd (by omega : pos.quantity - q = 0) hz,
      fun _ => find?_updateQty db.positions pos hfind⟩

/-- C4 (witness): holding 5 TSLA at average 90, selling 3 at price 100
credits 300 and leaves 2 shares at average 90; selling all 5 from that
state deletes the row. -/
theorem execute_sell_math_witness :
    ("TSLA" ≠ "" ∧ (0 : Int) < 3 ∧
      (⟨1000, [⟨"TSLA", 5, 90⟩], []⟩ : DB).positions.find?
        (fun x => x.ticker == "TSLA") = some ⟨"TSLA", 5, 90⟩ ∧ (3 : Int) ≤ 5) ∧
    (execute_paper_trade none true (some 100) ⟨1000, [⟨"TSLA", 5, 90⟩], []⟩
        "sell" "TSLA" 3).2.cash = 1300 ∧
    (execute_paper_trade none true (some 100) ⟨1000, [⟨"TSLA", 5, 90⟩], []⟩
        "sell" "TSLA" 3).2.positions.find? (fun x => x.ticker == "TSLA") =
      some ⟨"TSLA", 2, 90⟩ := by
  refine ⟨⟨by decide, by decide, by decide, by decide⟩, ?_, ?_⟩
  · have h := execute_sell_math ⟨1000, [⟨"TSLA", 5, 90⟩], []⟩ 100 "TSLA" 3 ⟨"TSLA", 5, 90⟩
      (by decide) (by decide) (by decide) (by decide)
    rw [h.2.1]; norm_num
  · have h := execute_sell_math ⟨1000, [⟨"TSLA", 5, 90⟩], []⟩ 100 "TSLA" 3 ⟨"TSLA", 5, 90⟩
      (by decide) (by decide) (by decide) (by decide)
    have := h.2.2.2.2 (by decide)
    simpa using this

/-! ## C10: unrecognized actions -/

/-- C10: an action other than buy/sell (after lowercasing) falls through
both branches to the `trades` insert: the call succeeds, the trade row
records the lowercased action, and cash and positions are untouched. -/
theorem execute_unknown_action_records_only
    (userExists : Bool) (db : DB) (a tk : String) (q : Int) (p : ℚ)
    (ha : a ≠ "") (hb : (lowerStr a).asString ≠ "buy") (hs : (lowerStr a).asString ≠ "sell")
    (htk : tk ≠ "") (hq : 0 < q) :
    execute_paper_trade none userExists (some p) db a tk q =
      (.success ⟨tk, (lowerStr a).asString, q, p, p * (q : ℚ)⟩,
       { db with trades := db.trades ++ [⟨tk, (lowerStr a).asString, q, p, p * (q : ℚ)⟩] }) := by
  simp [execute_paper_trade, insertTrade, opFails, ha, hb, hs, htk,
    ne_of_gt hq, abs_of_pos hq, not_le.mpr hq]

/-- C10 (witness): `executeTrade(hold, GME, 7)` at price 100 succeeds,
appends a trade row with action `hold`, and leaves cash and positions
unchanged. -/
theorem execute_unknown_action_witness :
    ("hold" ≠ "" ∧ (lowerStr "hold").asString ≠ "buy" ∧ (lowerStr "hold").asString ≠ "sell" ∧
      "GME" ≠ "" ∧ (0 : Int) < 7) ∧
    execute_paper_trade none true (some 100) ⟨500, [⟨"AAPL", 2, 10⟩], []⟩ "hold" "GME" 7 =
      (.success ⟨"GME", "hold", 7, 100, 700⟩,
       ⟨500, [⟨"AAPL", 2, 10⟩], [⟨"GME", "hold", 7, 100, 700⟩]⟩) := by
  refine ⟨⟨by decide, by decide, by decide, by decide, by decide⟩, ?_⟩
  have h := execute_unknown_action_records_only true ⟨500, [⟨"AAPL", 2, 10⟩], []⟩
    "hold" "GME" 7 100 (by decide) (by decide) (by decide) (by decide) (by decide)
  rw [h]
  norm_num [(by decide : (lowerStr "hold").asString = "hold")]

/-! ## Intent parsing: `GeminiService` keyword fallbacks

`_basic_intent_parsing` is the deterministic keyword fallback used by
`parse_trading_intent` and `generate_trading_order` whenever the
language model is absent or returned unusable output;
`_check_for_price_query` with the model absent uses its regex/table
fallback. -/

/-- The parsed intent dictionary: `is_conversation`, `action`, `ticker`,
`quantity` (the conversation case also carries the raw query, which the
dispatch does not inspect for classification). -/
structure Intent where
  is_conversation : Bool
  action : Option String
  ticker : Option String
  quantity : Option Int
deriving DecidableEq

/-- `conversation_keywords` of `_basic_intent_parsing`. -/
def conversation_keywords : List String :=
  ["what", "how", "when", "why", "tell me", "explain", "market", "opinion",
   "thoughts", "think", "advice", "suggest", "recommend", "prediction", "forecast"]

/-- `buy_phrases` of `_basic_intent_parsing`. -/
def buy_phrases : List String :=
  ["buy", "purchase", "get", "acquire", "long", "want to buy", "would like to buy",
   "pick up"]

/-- `sell_phrases` of `_basic_intent_parsing`. -/
def sell_phrases : List String :=
  ["sell", "sale", "dump", "get rid of", "short", "unload", "want to sell",
   "would like to sell"]

/-- `common_tickers` of `_basic_intent_parsing`. -/
def common_tickers : List String :=
  ["aapl", "msft", "goog", "googl", "amzn", "tsla", "meta", "nvda", "nflx", "dis",
   "intc", "amd", "spy", "qqq", "voo", "baba", "v", "ma", "pypl", "jpm", "wmt", "xom",
   "ko", "pep", "t", "vz", "csco", "adbe", "crm", "ibm", "gs", "ba", "tgt"]

/-- `number_words` of `_basic_intent_parsing`, in insertion order. -/
def number_words : List (String × Int) :=
  [("one", 1), ("two", 2), ("three", 3), ("four", 4), ("five", 5),
   ("six", 6), ("seven", 7), ("eight", 8), ("nine", 9), ("ten", 10),
   ("twenty", 20), ("thirty", 30), ("forty", 40), ("fifty", 50),
   ("hundred", 100), ("thousand", 1000)]

/-- The per-word cleanup of the ticker scan:
`''.join(c for c in word if c.isalnum())` (which subsumes the preceding
`strip(",.!?")`). -/
def cleanWord (w : List Char) : List Char := w.filter Char.isAlphanum

/-- The ticker scan of `_basic_intent_parsing` over the whitespace-split
words: the first word whose cleaned form is a known ticker (lowercased)
or is 1-5 alphabetic characters equal to their own uppercasing, returned
uppercased. -/
def findTicker : List (List Char) → Option String
  | [] => none
  | w :: ws =>
    let c := cleanWord w
    if common_tickers.contains (c.map Char.toLower).asString then
      some ((c.map Char.toUpper).asString)
    else if c.length ≤ 5 && (c.map Char.toUpper) == c &&
        (decide (c.length ≥ 1) && c.all Char.isAlpha) then
      some ((c.map Char.toUpper).asString)
    else findTicker ws

/-- `GeminiService._basic_intent_parsing(transcription)`: conversation
keyword scan first; otherwise action from the buy phrases then the sell
phrases, ticker from the word scan, quantity from the first `\b\d+\b`
match and otherwise the first number word contained in the text. -/
def _basic_intent_parsing (transcription : String) : Intent :=
  let text := lowerStr transcription
  if conversation_keywords.any (fun k => strContains text k) then
    { is_conversation := true, action := none, ticker := none, quantity := none }
  else
    let action : Option String :=
      if buy_phrases.any (fun ph => strContains text ph) then some "buy"
      else if sell_phrases.any (fun ph => strContains text ph) then some "sell"
      else none
    let ticker : Option String := findTicker (whitespaceWords text)
    let quantity : Option Int :=
      match (digitTokens text).head? with
      | some d => some ((digitsToNat d : Int))
      | none => (number_words.find? (fun nw => strContains text nw.1)).map (fun nw => nw.2)
    { is_conversation := false, action := action, ticker := ticker, quantity := quantity }

/-- `price_check_keywords` of `_check_for_price_query`. -/
def price_check_keywords : List String :=
  ["price", "worth", "trading at", "quote", "going for", "how much is",
   "what's the price", "what is the price", "how is", "where is",
   "current price", "stock price"]

/-- `name_to_ticker` of `_check_for_price_query`, in insertion order. -/
def name_to_ticker : List (String × String) :=
  [("apple", "AAPL"), ("microsoft", "MSFT"), ("google", "GOOGL"), ("amazon", "AMZN"),
   ("tesla", "TSLA"), ("facebook", "META"), ("meta", "META"), ("netflix", "NFLX"),
   ("disney", "DIS"), ("nvidia", "NVDA"), ("amd", "AMD"), ("intel", "INTC")]

/-- `GeminiService._check_for_price_query(query)` with the language
model absent: keyword scan on the lowercased query; on a hit, the first
`\b[A-Z]{1,5}\b` token of the raw query, then the company-name table;
returns `(is_price_check, ticker)`. -/
def _check_for_price_query (query : String) : Bool × Option String :=
  let ql := lowerStr query
  let is_price_check := price_check_keywords.any (fun k => strContains ql k)
  if is_price_check then
    match (upperTickerTokens query.toList).head? with
    | some tk => (true, some tk.asString)
    | none =>
      match name_to_ticker.find? (fun nt => strContains ql nt.1) with
      | some nt => (true, some nt.2)
      | none => (is_price_check, none)
  else (is_price_check, none)

/-! ## The `process_speech` dispatch of `api/endpoints/calls.py` -/

/-- `positive_responses` of `process_speech`. -/
def positive_responses : List String :=
  ["yes", "yeah", "sure", "okay", "ok", "let's do it", "sounds good", "i agree",
   "go ahead"]

/-- The agreement test of `process_speech`: any positive phrase occurs
in the lowercased transcription. -/
def is_agreement (transcription : String) : Bool :=
  positive_responses.any (fun ph => strContains (lowerStr transcription) ph)

/-- The `sell_phrases` of the agreement handler (its `buy_phrases` list
is dead code: the action defaults to buy unless a sell phrase occurs in
the lowercased broker message). -/
def recommendation_sell_phrases : List String := ["sell", "dump", "get rid of"]

/-- The agreement handler's action extraction: `"sell"` if a
sell-indicating phrase occurs in the lowercased broker message, else the
default `"buy"`. -/
def agreement_action (broker_message : String) : String :=
  if recommendation_sell_phrases.any (fun ph => strContains (lowerStr broker_message) ph)
  then "sell" else "buy"

/-- Leftmost match of `re.search(r'(\d+)\s+shares', msg)`: at each
position, the maximal digit run there, then at least one whitespace
character, then the literal `shares` (the regex backtracks to exactly
this greedy reading or fails at that position). -/
def qtySharesAux : List Char → Option Nat
  | [] => none
  | c :: cs =>
    if c.isDigit then
      let ds := (c :: cs).takeWhile Char.isDigit
      let rest := (c :: cs).dropWhile Char.isDigit
      let ws := rest.takeWhile Char.isWhitespace
      let rest2 := rest.dropWhile Char.isWhitespace
      if decide (ws.length ≥ 1) && "shares".toList.isPrefixOf rest2 then
        some (digitsToNat ds)
      else qtySharesAux cs
    else qtySharesAux cs

/-- The agreement handler's quantity extraction: the `(\d+)\s+shares`
match in the broker message, defaulting to 10. -/
def agreement_quantity (broker_message : String) : Int :=
  match qtySharesAux broker_message.toList with
  | some n => (n : Int)
  | none => 10

/-- The agreement handler's ticker extraction: the first
`\b[A-Z]{1,5}\b` token of the broker message. -/
def first_upper_ticker (msg : String) : Option String :=
  ((upperTickerTokens msg.toList).head?).map List.asString

/-- What `process_speech` does with one utterance: answer a price check,
execute a trade (from an explicit intent or from the most recent
recommendation after an agreement), converse, or report missing trade
parameters. -/
inductive SpeechOutcome where
  | priceCheck (ticker : String)
  | executeTrade (action : Option String) (ticker : String) (quantity : Int)
  | conversation
  | missingTradeParams
deriving DecidableEq

/-- The intent dispatch of `process_speech` (STEP 1 through STEP 3):
`intent` is the output of `generate_trading_order` (the keyword fallback
when the model is absent), `lastOutbound` the most recent outbound
call-log entry.  STEP 1: the price-check path is taken exactly when
`_check_for_price_query` returned the flag and a ticker.  Otherwise a
conversational intent goes to the agreement handler (when an agreement
phrase is present and the last outbound message yields a ticker) or to
conversation; a trade intent with a falsy ticker or quantity is refused
as missing parameters, else the trade executes. -/
def process_speech_resolve (intent : Intent) (transcription : String)
    (lastOutbound : Option String) : SpeechOutcome :=
  match _check_for_price_query transcription with
  | (true, some tk) => .priceCheck tk
  | _ =>
    if intent.is_conversation = true then
      if is_agreement transcription = true then
        match lastOutbound with
        | some bmsg =>
          match first_upper_ticker bmsg with
          | some tk =>
            .executeTrade (some (agreement_action bmsg)) tk (agreement_quantity bmsg)
          | none => .conversation
        | none => .conversation
      else .conversation
    else
      if intent.ticker = none ∨ intent.ticker = some "" ∨
          intent.quantity = none ∨ intent.quantity = some 0 then
        .missingTradeParams
      else .executeTrade intent.action (intent.ticker.getD "") (intent.quantity.getD 0)

/-- `process_speech` dispatch with the language model absent:
`generate_trading_order` falls back to `_basic_intent_parsing`. -/
def resolveNoModel (transcription : String) (lastOutbound : Option String) :
    SpeechOutcome :=
  process_speech_resolve (_basic_intent_parsing transcription) transcription lastOutbound

/-! ## C8: determinism of the keyword fallback -/

/-- C8: with the model disabled the fallback is a pure function of the
transcription: parsing "buy 10 shares of AAPL" yields the buy-10-AAPL
trade intent and the dispatch executes it, and "what do you think about
the market" is classified as conversation and handled as such. -/
theorem basic_intent_fallback_deterministic :
    _basic_intent_parsing "buy 10 shares of AAPL" =
      ⟨false, some "buy", some "AAPL", some 10⟩ ∧
    _basic_intent_parsing "what do you think about the market" =
      ⟨true, none, none, none⟩ ∧
    resolveNoModel "buy 10 shares of AAPL" none =
      .executeTrade (some "buy") "AAPL" 10 ∧
    resolveNoModel "what do you think about the market" none = .conversation := by
  decide

/-! ## C7: price-check precedence -/

/-- C7 (counterexample): a price cue does not always win over a trade
cue.  The utterance "buy 10 shares of aapl at the current price"
contains the price keyword `price` and the trade keyword `buy`, but the
price-check extractor finds no ticker (no uppercase token, no known
company name), so the dispatch falls through to trade classification and
executes the buy instead of answering a price check. -/
theorem price_cue_without_ticker_trades :
    (_check_for_price_query "buy 10 shares of aapl at the current price").1 = true ∧
    strContains (lowerStr "buy 10 shares of aapl at the current price") "buy" = true ∧
    resolveNoModel "buy 10 shares of aapl at the current price" none =
      .executeTrade (some "buy") "AAPL" 10 := by
  decide

theorem check_price_snd_some (s : String) (tk : String)
    (h : (_check_for_price_query s).2 = some tk) :
    _check_for_price_query s = (true, some tk) := by
  unfold _check_for_price_query at h ⊢
  dsimp only at h ⊢
  by_cases hpc : price_check_keywords.any (fun k => strContains (lowerStr s) k) = true
  · rw [if_pos hpc] at h ⊢
    rcases hu : (upperTickerTokens s.toList).head? with _ | w
    · try rw [hu] at h
      try rw [hu]
      rcases hn : name_to_ticker.find? (fun nt => strContains (lowerStr s) nt.1) with _ | nt
      · try rw [hn] at h
        exact Option.noConfusion h
      · try rw [hn] at h
        try rw [hn]
        exact congrArg (fun o => ((true : Bool), o)) h
    · try rw [hu] at h
      try rw [hu]
      exact congrArg (fun o => ((true : Bool), o)) h
  · rw [if_neg hpc] at h
    dsimp only at h
    exact Option.noConfusion h

/-- C7 (amended): the price check is evaluated first and wins whenever
it both fires and extracts a ticker — regardless of any trade cue in the
utterance, and for every classifier output; in particular
"what's AAPL trading at" resolves to a price check on AAPL.  When the
price cue fires but no ticker is extracted, the utterance falls through
to trade/conversation classification (see the counterexample). -/
theorem price_check_precedence (intent : Intent) (s : String) (lo : Option String)
    (tk : String) (h : (_check_for_price_query s).2 = some tk) :
    process_speech_resolve intent s lo = .priceCheck tk ∧
    resolveNoModel "what's AAPL trading at" none = .priceCheck "AAPL" := by
  constructor
  · have h1 := check_price_snd_some s tk h
    unfold process_speech_resolve
    rw [h1]
  · decide

/-- C7 (witness): "what is the price of TSLA" extracts TSLA, and the
dispatch answers the price check even for a classifier output that
requests a trade. -/
theorem price_check_precedence_witness :
    (_check_for_price_query "what is the price of TSLA").2 = some "TSLA" ∧
    process_speech_resolve ⟨false, some "buy", some "TSLA", some 5⟩
      "what is the price of TSLA" none = .priceCheck "TSLA" := by
  constructor
  · decide
  · exact (price_check_precedence ⟨false, some "buy", some "TSLA", some 5⟩
      "what is the price of TSLA" none "TSLA" (by decide)).1

/-! ## C9: agreement resolution -/

/-- C9 (counterexample): an affirmation that is classified as agreement
is not always resolved against the last recommendation.  With the
language model absent, "yes let's do it" passes the agreement test, but
the keyword fallback classifies it as a (malformed) trade intent —
no conversation keyword occurs in it — so the dispatch never reaches the
agreement handler: it reports missing trade parameters and executes
nothing, despite the pending "...10 shares of AAPL..." recommendation. -/
theorem affirmation_fallback_no_trade :
    is_agreement "yes let's do it" = true ∧
    _basic_intent_parsing "yes let's do it" = ⟨false, none, none, none⟩ ∧
    resolveNoModel "yes let's do it"
      (some "Hot tip - grab 10 shares of AAPL before the next earnings call") =
      .missingTradeParams := by
  decide

/-- C9 (amended): the agreement handler runs only when the intent
generator classified the utterance as conversational; in that case an
agreement phrase triggers extraction from the most recent outbound
message — first 1-5-letter uppercase token as ticker, action defaulting
to buy unless a sell phrase occurs, quantity from `<N> shares` with
default 10 — and the trade executes: with the recommendation
"...grab 10 shares of AAPL..." pending, "yes let's do it" yields the
buy-10-AAPL trade. -/
theorem agreement_resolution_with_conversation_intent (intent : Intent)
    (h : intent.is_conversation = true) :
    process_speech_resolve intent "yes let's do it"
      (some "Hot tip - grab 10 shares of AAPL before the next earnings call") =
      .executeTrade (some "buy") "AAPL" 10 := by
  obtain ⟨b, a, t, q⟩ := intent
  simp only at h
  subst h
  rfl

/-- C9 (witness): the conversational classification of the affirmation
makes the pending recommendation execute as buy 10 AAPL. -/
theorem agreement_resolution_witness :
    (⟨true, none, none, none⟩ : Intent).is_conversation = true ∧
    process_speech_resolve ⟨true, none, none, none⟩ "yes let's do it"
      (some "Hot tip - grab 10 shares of AAPL before the next earnings call") =
      .executeTrade (some "buy") "AAPL" 10 :=
  ⟨rfl, agreement_resolution_with_conversation_intent ⟨true, none, none, none⟩ rfl⟩

end Wolf

